import Mathlib

/-!
Verification of the semvercli tool (src/main.rs) against its natural-language
specification.  The repository itself only glues the third-party `semver` and
`toml_edit` crates together; where a claim depends on those external
collaborators, the corresponding definition is modelled from the spec and its
doc comment says so.
-/

namespace Semvercli

/-- The ten ASCII digit characters, used to classify identifier segments. -/
def isDigitChar (c : Char) : Bool :=
  c == '0' || c == '1' || c == '2' || c == '3' || c == '4' ||
  c == '5' || c == '6' || c == '7' || c == '8' || c == '9'

/-- Lower-case ASCII letters. -/
def isLowerChar (c : Char) : Bool :=
  c == 'a' || c == 'b' || c == 'c' || c == 'd' || c == 'e' || c == 'f' ||
  c == 'g' || c == 'h' || c == 'i' || c == 'j' || c == 'k' || c == 'l' ||
  c == 'm' || c == 'n' || c == 'o' || c == 'p' || c == 'q' || c == 'r' ||
  c == 's' || c == 't' || c == 'u' || c == 'v' || c == 'w' || c == 'x' ||
  c == 'y' || c == 'z'

/-- Upper-case ASCII letters. -/
def isUpperChar (c : Char) : Bool :=
  c == 'A' || c == 'B' || c == 'C' || c == 'D' || c == 'E' || c == 'F' ||
  c == 'G' || c == 'H' || c == 'I' || c == 'J' || c == 'K' || c == 'L' ||
  c == 'M' || c == 'N' || c == 'O' || c == 'P' || c == 'Q' || c == 'R' ||
  c == 'S' || c == 'T' || c == 'U' || c == 'V' || c == 'W' || c == 'X' ||
  c == 'Y' || c == 'Z'

/-- Characters allowed inside a pre-release or build identifier:
letters, digits and hyphens (spec section 3, "Identifier"). -/
def isIdentChar (c : Char) : Bool :=
  isDigitChar c || isLowerChar c || isUpperChar c || c == '-'

/-- Numeric value of an ASCII digit character. -/
def charToDigit (c : Char) : Nat := c.toNat - 48

/-- ASCII digit character for a digit value below ten. -/
def digitToChar (d : Nat) : Char :=
  (['0', '1', '2', '3', '4', '5', '6', '7', '8', '9'].getD d '0')

/-- Value of a big-endian ASCII digit string, as `str::parse::<u64>` computes it
on an all-digit string (without the 64-bit bound, which no claim exercises). -/
def digitsToNat (s : List Char) : Nat :=
  s.foldl (fun a c => 10 * a + charToDigit c) 0

/-- Little-endian base-10 digits of `n`, computed with structural fuel so that
concrete evaluation reduces in the kernel.  `natDigitsLE` below instantiates the
fuel; it agrees with `Nat.digits 10`. -/
def natDigitsAux : Nat → Nat → List Nat
  | 0, _ => []
  | fuel + 1, n => if n = 0 then [] else n % 10 :: natDigitsAux fuel (n / 10)

/-- Little-endian base-10 digits of `n` (empty for zero). -/
def natDigitsLE (n : Nat) : List Nat := natDigitsAux n n

/-- Canonical decimal rendering of a natural number, as Rust's `Display` for
`u64` produces it: most significant digit first, `"0"` for zero, and no leading
zeros otherwise. -/
def natToChars (n : Nat) : List Char :=
  if n = 0 then ['0'] else (natDigitsLE n).reverse.map digitToChar

/-- A pre-release or build identifier, mirroring `semver::Identifier`:
either numeric (stored as a number) or alphanumeric (stored as its characters). -/
inductive Identifier where
  | numeric (n : Nat)
  | alphaNumeric (s : List Char)
deriving DecidableEq, Repr

/-- Rendering of one identifier, mirroring `Display for semver::Identifier`. -/
def idChars : Identifier → List Char
  | .numeric n => natToChars n
  | .alphaNumeric s => s

/-- A semantic version, mirroring `semver::Version` (major/minor/patch plus
pre-release and build identifier sequences).  The `u64` fields are modelled as
`Nat`; no claim exercises 64-bit overflow. -/
structure Version where
  major : Nat
  minor : Nat
  patch : Nat
  pre : List Identifier
  build : List Identifier
deriving DecidableEq, Repr

/-- Join character lists with a dot separator: tail part, every element
preceded by a dot. -/
def joinDotTail (segs : List (List Char)) : List Char :=
  segs.foldr (fun s acc => '.' :: (s ++ acc)) []

/-- Join character lists with dots between them (`join(".")`). -/
def joinDot : List (List Char) → List Char
  | [] => []
  | s :: rest => s ++ joinDotTail rest

/-- Rendering of an identifier sequence: each identifier rendered, joined by
dots.  This is `From<VersionMetadata> for String` in src/main.rs. -/
def renderMetaChars (ids : List Identifier) : List Char :=
  joinDot (ids.map idChars)

/-- String form of the identifier-sequence rendering
(`String::from(VersionMetadata(...))` in src/main.rs). -/
def metadataToString (ids : List Identifier) : String :=
  (renderMetaChars ids).asString

/-- Canonical rendering of a version, mirroring `Display for semver::Version`:
`major.minor.patch`, then `-pre` if the pre-release sequence is non-empty,
then `+build` if the build sequence is non-empty. -/
def renderVersionChars (v : Version) : List Char :=
  (natToChars v.major) ++ ('.' :: ((natToChars v.minor) ++ ('.' :: ((natToChars v.patch) ++
    ((if v.pre.isEmpty then [] else '-' :: renderMetaChars v.pre) ++
     (if v.build.isEmpty then [] else '+' :: renderMetaChars v.build))))))

/-- String form of the canonical version rendering (`Version::to_string`). -/
def renderVersionStr (v : Version) : String :=
  (renderVersionChars v).asString

/-- Longest prefix of characters satisfying `p`, together with the remainder. -/
def charSpan (p : Char → Bool) : List Char → List Char × List Char
  | [] => ([], [])
  | c :: rest =>
    if p c then
      let t := charSpan p rest
      (c :: t.1, t.2)
    else ([], c :: rest)

/-- Modelled from the spec: one dot-separated identifier segment of the
semantic-versioning grammar (the `semver` crate's parser is not part of this
repository).  The maximal run of letters/digits/hyphens is taken; an empty run
is an error; an all-digit run is a numeric identifier, rejected when it has a
leading zero and `allowLZ` is false (the pre-release position), and otherwise
the run is an alphanumeric identifier. -/
def parseId (allowLZ : Bool) (cs : List Char) : Option (Identifier × List Char) :=
  match charSpan isIdentChar cs with
  | (tok, rest) =>
    if tok.isEmpty then none
    else if tok.all isDigitChar then
      if !allowLZ && decide (1 < tok.length) && (tok.head? == some '0') then none
      else some (.numeric (digitsToNat tok), rest)
    else some (.alphaNumeric tok, rest)

/-- Modelled from the spec: the remaining `.`-separated identifiers after the
first one.  Fuel keeps the recursion structural; `parseIdList` supplies
enough fuel for the input. -/
def parseMoreIds (allowLZ : Bool) (fuel : Nat) (cs : List Char) :
    Option (List Identifier × List Char) :=
  match cs with
  | [] => some ([], [])
  | c :: rest =>
    if c = '.' then
      match fuel with
      | 0 => none
      | fuel' + 1 =>
        match parseId allowLZ rest with
        | none => none
        | some (id, rest2) =>
          match parseMoreIds allowLZ fuel' rest2 with
          | none => none
          | some (ids, rest3) => some (id :: ids, rest3)
    else some ([], c :: rest)

/-- Modelled from the spec: a non-empty dot-separated identifier sequence
(the pre-release or build component of a version string). -/
def parseIdList (allowLZ : Bool) (cs : List Char) : Option (List Identifier × List Char) :=
  match parseId allowLZ cs with
  | none => none
  | some (id, rest) =>
    match parseMoreIds allowLZ rest.length rest with
    | none => none
    | some (ids, rest2) => some (id :: ids, rest2)

/-- Modelled from the spec: a dotless numeric component (major, minor or
patch): a non-empty run of digits without leading zeros. -/
def parseNum (cs : List Char) : Option (Nat × List Char) :=
  match charSpan isDigitChar cs with
  | (tok, rest) =>
    if tok.isEmpty then none
    else if decide (1 < tok.length) && (tok.head? == some '0') then none
    else some (digitsToNat tok, rest)

/-- Consume one expected character. -/
def expectChar (c : Char) : List Char → Option (List Char)
  | [] => none
  | x :: rest => if x = c then some rest else none

/-- Modelled from the spec: an optional metadata component introduced by
`intro` (`-` for pre-release, `+` for build); absent when the next character
differs. -/
def parseOptMeta (intro : Char) (allowLZ : Bool) (cs : List Char) :
    Option (List Identifier × List Char) :=
  match cs with
  | [] => some ([], [])
  | c :: rest => if c = intro then parseIdList allowLZ rest else some ([], c :: rest)

/-- Modelled from the spec: the full semantic-versioning grammar
`major.minor.patch[-pre][+build]` with nothing left over (the `semver` crate's
`Version::parse`, an external collaborator of this repository).  Numeric
identifiers in the pre-release position must not have leading zeros; the build
position follows the semantic-versioning rule that permits them. -/
def parseVersionChars (cs : List Char) : Option Version :=
  match parseNum cs with
  | none => none
  | some (major, cs1) =>
    match expectChar '.' cs1 with
    | none => none
    | some cs2 =>
      match parseNum cs2 with
      | none => none
      | some (minor, cs3) =>
        match expectChar '.' cs3 with
        | none => none
        | some cs4 =>
          match parseNum cs4 with
          | none => none
          | some (patch, cs5) =>
            match parseOptMeta '-' false cs5 with
            | none => none
            | some (pre, cs6) =>
              match parseOptMeta '+' true cs6 with
              | none => none
              | some (build, cs7) =>
                if cs7.isEmpty then some ⟨major, minor, patch, pre, build⟩ else none

/-- Version parsing at the string level. -/
def parseVersion (s : String) : Option Version :=
  parseVersionChars s.data

/-- Outcome of `TryFrom<&str> for VersionMetadata` (src/main.rs): the function
body is `Ok(Version::parse(&format!("0.0.0-{}", meta)).unwrap().pre)`, so it
either returns `Ok` with the pre-release identifiers of the junk version, or
panics when the inner `unwrap` hits a parse error.  The declared `Err` variant
of the `TryFrom` result is represented by `declaredErr`. -/
inductive TryFromOutcome where
  | ok (ids : List Identifier)
  | declaredErr (msg : String)
  | panicked
deriving DecidableEq, Repr

/-- `TryFrom<&str> for VersionMetadata` (src/main.rs lines 142-156): format the
label into the pre-release position of the junk version `0.0.0-<label>`, parse
the whole string, and return the parsed pre-release sequence; a parse failure
panics through `unwrap`. -/
def versionMetadataTryFrom (meta : String) : TryFromOutcome :=
  match parseVersion ("0.0.0-" ++ meta) with
  | some v => .ok v.pre
  | none => .panicked

/-- Modelled from the spec: `increment-major` of the Version Mutator
(`semver::Version::increment_major`, an external collaborator; spec section 4.1
gives `major += 1; minor = 0; patch = 0; pre_release = []; build = []`). -/
def incrementMajor (v : Version) : Version :=
  ⟨v.major + 1, 0, 0, [], []⟩

/-- Modelled from the spec: `increment-minor`
(`semver::Version::increment_minor`, an external collaborator; spec section 4.1
gives `minor += 1; patch = 0; pre_release = []`).  The spec's section 9 leaves
the treatment of build metadata on this operation explicitly open, so this
model leaves `build` unchanged; no claim settled against this model depends on
what happens to `build` here. -/
def incrementMinor (v : Version) : Version :=
  ⟨v.major, v.minor + 1, 0, [], v.build⟩

/-- Modelled from the spec: `increment-patch`
(`semver::Version::increment_patch`, an external collaborator; spec section 4.1
gives `patch += 1; pre_release = []`).  As with `incrementMinor`, the build
metadata treatment is left open by the spec and `build` is left unchanged. -/
def incrementPatch (v : Version) : Version :=
  ⟨v.major, v.minor, v.patch + 1, [], v.build⟩

/-- One operation of the `bump` subcommand, one constructor per flag of the
mutually exclusive `bump-args` group (src/main.rs `parser`). -/
inductive BumpOp where
  | major
  | minor
  | patch
  | setPre (label : String)
  | setBuild (label : String)
  | setFull (s : String)
deriving DecidableEq, Repr

/-- The version mutation performed by `bump` (src/main.rs lines 225-248),
before the manifest write-back.  `none` models a panic: the `unwrap` inside
`VersionMetadata::try_from` for `--pre`/`--build`, or the `expect` on
`Version::parse` for `--version`. -/
def applyBump (v : Version) : BumpOp → Option Version
  | .major => some (incrementMajor v)
  | .minor => some (incrementMinor v)
  | .patch => some (incrementPatch v)
  | .setPre label =>
    match versionMetadataTryFrom label with
    | .ok ids => some { v with pre := ids }
    | _ => none
  | .setBuild label =>
    match versionMetadataTryFrom label with
    | .ok ids => some { v with build := ids }
    | _ => none
  | .setFull s => parseVersion s

/-- Modelled from the spec: the Manifest Store collaborator (a `toml_edit`
document and the file it is read from, neither part of this repository).  Per
spec sections 2 and 6, the document exposes the string at `package.version` and
preserves every other field and formatting detail verbatim; the surrounding
bytes are therefore carried as opaque text before and after the version value. -/
structure Document where
  preText : String
  version : String
  postText : String
deriving DecidableEq, Repr

/-- The bytes of the manifest file rendered from a document. -/
def renderDocument (d : Document) : String :=
  d.preText ++ d.version ++ d.postText

/-- The `bump` branch of `execute` (src/main.rs lines 257-261 with `bump`,
lines 225-248): read and parse the manifest's version, apply the operation, and
only then store the new version string back into the document.  `none` models a
panic: the process aborts with a non-zero exit before `write_manifest` runs, so
the manifest file keeps its previous bytes. -/
def executeBump (doc : Document) (op : BumpOp) : Option Document :=
  match parseVersion doc.version with
  | none => none
  | some v =>
    match applyBump v op with
    | none => none
    | some w => some { doc with version := renderVersionStr w }

/-- The `read` selectors, one per flag of the `read-args` group. -/
inductive ReadSel where
  | major
  | minor
  | patch
  | pre
  | build
  | full
deriving DecidableEq, Repr

/-- The component string printed by the `read` subcommand
(src/main.rs lines 201-219), without the trailing newline. -/
def readComponent (v : Version) : ReadSel → String
  | .major => (natToChars v.major).asString
  | .minor => (natToChars v.minor).asString
  | .patch => (natToChars v.patch).asString
  | .pre => metadataToString v.pre
  | .build => metadataToString v.build
  | .full => renderVersionStr v

/-- Split a character list at every dot; always returns at least one
(possibly empty) segment. -/
def splitSegs : List Char → List (List Char)
  | [] => [[]]
  | c :: rest =>
    let ss := splitSegs rest
    if c = '.' then [] :: ss
    else
      match ss with
      | s :: tail => (c :: s) :: tail
      | [] => [[c]]

/-- A single segment of the identifier grammar (spec section 4.1): non-empty,
letters/digits/hyphens only, and an all-digit segment has no leading zero
unless it is exactly `0`. -/
def isValidSegment (s : List Char) : Bool :=
  !s.isEmpty && s.all isIdentChar &&
    (!(s.all isDigitChar) || s.length == 1 || !(s.head? == some '0'))

/-- The dot-separated identifier-segment grammar for pre-release and build
labels (spec section 4.1): every dot-separated segment is a valid segment. -/
def isValidLabel (label : String) : Bool :=
  (splitSegs label.data).all isValidSegment

/-- Classification of a valid segment, as the grammar's decoding produces it:
all-digit segments become numeric identifiers, all others alphanumeric. -/
def classifySeg (s : List Char) : Identifier :=
  if s.all isDigitChar then .numeric (digitsToNat s) else .alphaNumeric s

/-- The identifiers well-typed version values carry: an alphanumeric
identifier is non-empty, uses only letters/digits/hyphens, and is not all
digits (an all-digit sequence is stored as a numeric identifier). -/
def wfIdentifier : Identifier → Bool
  | .numeric _ => true
  | .alphaNumeric s => !s.isEmpty && s.all isIdentChar && !(s.all isDigitChar)

/-- A version value whose metadata sequences carry only well-formed
identifiers — exactly the values obtainable from parsed labels. -/
def wfVersion (v : Version) : Bool :=
  v.pre.all wfIdentifier && v.build.all wfIdentifier

example : parseVersion "1.2.3" = some ⟨1, 2, 3, [], []⟩ := by decide
example : parseVersion "1.2.3-alpha.1+build.7" =
    some ⟨1, 2, 3, [.alphaNumeric ['a','l','p','h','a'], .numeric 1],
      [.alphaNumeric ['b','u','i','l','d'], .numeric 7]⟩ := by decide
example : parseVersion "not-a-version" = none := by decide
example : parseVersion "1.2.3-01" = none := by decide
example : parseVersion "1.2.3+01" = some ⟨1, 2, 3, [], [.numeric 1]⟩ := by decide
example : renderVersionStr ⟨1, 2, 3, [.alphaNumeric ['r','c'], .numeric 2], []⟩
    = "1.2.3-rc.2" := by decide
example : versionMetadataTryFrom "a+b" = .ok [.alphaNumeric ['a']] := by decide
example : versionMetadataTryFrom "a..b" = .panicked := by decide
example : versionMetadataTryFrom "" = .panicked := by decide
example : versionMetadataTryFrom "01" = .panicked := by decide
example : isValidLabel "a+b" = false := by decide
example : isValidLabel "alpha.1" = true := by decide
example : isValidLabel "x.7.z.92" = true := by decide
example : metadataToString [.alphaNumeric ['a','l','p','h','a'], .numeric 1] = "alpha.1" := by
  decide

lemma digit_char_cases {c : Char} (h : isDigitChar c = true) :
    c = '0' ∨ c = '1' ∨ c = '2' ∨ c = '3' ∨ c = '4' ∨
    c = '5' ∨ c = '6' ∨ c = '7' ∨ c = '8' ∨ c = '9' := by
  simpa [isDigitChar, beq_iff_eq, or_assoc] using h

lemma charToDigit_digitToChar {d : Nat} (h : d < 10) :
    charToDigit (digitToChar d) = d := by
  interval_cases d <;> decide

lemma digitToChar_charToDigit {c : Char} (h : isDigitChar c = true) :
    digitToChar (charToDigit c) = c := by
  rcases digit_char_cases h with rfl | rfl | rfl | rfl | rfl | rfl | rfl | rfl | rfl | rfl <;>
    decide

lemma isDigitChar_digitToChar {d : Nat} (h : d < 10) :
    isDigitChar (digitToChar d) = true := by
  interval_cases d <;> decide

lemma isIdentChar_of_isDigitChar {c : Char} (h : isDigitChar c = true) :
    isIdentChar c = true := by
  simp [isIdentChar, h]

lemma charToDigit_lt {c : Char} (h : isDigitChar c = true) : charToDigit c < 10 := by
  rcases digit_char_cases h with rfl | rfl | rfl | rfl | rfl | rfl | rfl | rfl | rfl | rfl <;>
    decide

lemma digitToChar_ne_zero_char {d : Nat} (hd : d < 10) (h : d ≠ 0) :
    digitToChar d ≠ '0' := by
  interval_cases d <;> simp_all <;> decide

lemma charToDigit_eq_zero {c : Char} (hc : isDigitChar c = true)
    (h : charToDigit c = 0) : c = '0' := by
  rcases digit_char_cases hc with rfl | rfl | rfl | rfl | rfl | rfl | rfl | rfl | rfl | rfl <;>
    first | rfl | (exfalso; revert h; decide)

lemma natDigitsAux_eq {fuel n : Nat} (h : n ≤ fuel) :
    natDigitsAux fuel n = Nat.digits 10 n := by
  induction fuel generalizing n with
  | zero =>
    have : n = 0 := Nat.le_zero.mp h
    subst this
    simp [natDigitsAux]
  | succ fuel ih =>
    by_cases hn : n = 0
    · subst hn; simp [natDigitsAux]
    · rw [natDigitsAux, if_neg hn,
        ih (by
          have hlt : n / 10 < n := Nat.div_lt_self (Nat.pos_of_ne_zero hn) (by omega)
          omega),
        Nat.digits_def' (by omega : (1:Nat) < 10) (Nat.pos_of_ne_zero hn)]

lemma natDigitsLE_eq (n : Nat) : natDigitsLE n = Nat.digits 10 n :=
  natDigitsAux_eq le_rfl

lemma natToChars_eq (n : Nat) (hn : n ≠ 0) :
    natToChars n = (Nat.digits 10 n).reverse.map digitToChar := by
  rw [natToChars, if_neg hn, natDigitsLE_eq]

lemma foldl_eq_ofDigits (M : List Nat) (a : Nat) :
    M.foldl (fun x d => 10 * x + d) a = a * 10 ^ M.length + Nat.ofDigits 10 M.reverse := by
  induction M generalizing a with
  | nil => simp [Nat.ofDigits_nil]
  | cons d M ih =>
    rw [List.foldl_cons, ih, List.reverse_cons, Nat.ofDigits_append]
    simp [Nat.ofDigits_cons, Nat.ofDigits_nil, List.length_reverse, pow_succ]
    ring

lemma digitsToNat_eq (s : List Char) :
    digitsToNat s = Nat.ofDigits 10 ((s.map charToDigit).reverse) := by
  rw [digitsToNat, ← List.foldl_map charToDigit (fun a d => 10 * a + d) s 0,
    foldl_eq_ofDigits]
  simp

lemma digitsToNat_natToChars (n : Nat) : digitsToNat (natToChars n) = n := by
  by_cases hn : n = 0
  · subst hn; decide
  · rw [natToChars_eq n hn, digitsToNat_eq, List.map_map,
      List.map_congr_left (g := id) (by
        intro d hd
        have hd10 : d < 10 :=
          Nat.digits_lt_base (by omega) (List.mem_reverse.mp hd)
        simpa using charToDigit_digitToChar hd10)]
    simp [Nat.ofDigits_digits]

lemma natToChars_all_digit (n : Nat) : (natToChars n).all isDigitChar = true := by
  by_cases hn : n = 0
  · subst hn; decide
  · rw [natToChars_eq n hn, List.all_eq_true]
    intro c hc
    rcases List.mem_map.mp hc with ⟨d, hd, rfl⟩
    exact isDigitChar_digitToChar (Nat.digits_lt_base (by omega) (List.mem_reverse.mp hd))

lemma natToChars_ne_nil (n : Nat) : natToChars n ≠ [] := by
  by_cases hn : n = 0
  · subst hn; decide
  · rw [natToChars_eq n hn]
    simp [Nat.digits_ne_nil_iff_ne_zero.mpr hn]

lemma natToChars_no_leading_zero (n : Nat) :
    (natToChars n).length = 1 ∨ (natToChars n).head? ≠ some '0' := by
  by_cases hn : n = 0
  · subst hn; left; decide
  · by_cases hsmall : n < 10
    · left
      rw [natToChars_eq n hn, Nat.digits_of_lt 10 n hn hsmall]
      simp
    · right
      rw [natToChars_eq n hn, List.head?_map, List.head?_reverse,
        List.getLast?_eq_getLast _ (Nat.digits_ne_nil_iff_ne_zero.mpr hn)]
      have hd10 : (Nat.digits 10 n).getLast (Nat.digits_ne_nil_iff_ne_zero.mpr hn) < 10 :=
        Nat.digits_lt_base (by omega) (List.getLast_mem _)
      have hdz := Nat.getLast_digit_ne_zero 10 hn
      simp only [Option.map_some', ne_eq, Option.some.injEq]
      exact digitToChar_ne_zero_char hd10 hdz

lemma ofDigits_ten_eq_zero {L : List Nat} (h : Nat.ofDigits 10 L = 0) :
    ∀ d ∈ L, d = 0 := by
  induction L with
  | nil => simp
  | cons d L ih =>
    simp only [Nat.ofDigits_cons, Nat.cast_id] at h
    have hd : d = 0 ∧ Nat.ofDigits 10 L = 0 := by omega
    intro x hx
    rcases List.mem_cons.mp hx with rfl | hx
    · exact hd.1
    · exact ih hd.2 x hx

lemma natToChars_digitsToNat {s : List Char} (h1 : s ≠ [])
    (h2 : s.all isDigitChar = true)
    (h3 : s.length = 1 ∨ s.head? ≠ some '0') :
    natToChars (digitsToNat s) = s := by
  have hdig : ∀ c ∈ s, isDigitChar c = true := List.all_eq_true.mp h2
  rcases s with _ | ⟨c, t⟩
  · exact absurd rfl h1
  have hcd : isDigitChar c = true := hdig c (by simp)
  by_cases hz : digitsToNat (c :: t) = 0
  · have hzeros : ∀ x ∈ c :: t, x = '0' := by
      intro x hx
      refine charToDigit_eq_zero (hdig x hx) ?_
      refine ofDigits_ten_eq_zero (L := ((c :: t).map charToDigit).reverse) ?_ _ ?_
      · rw [← digitsToNat_eq]; exact hz
      · exact List.mem_reverse.mpr (List.mem_map_of_mem _ hx)
    have hc0 : c = '0' := hzeros c (by simp)
    rcases h3 with hlen | hhead
    · have ht : t = [] := List.length_eq_zero.mp (by simpa using hlen)
      subst ht; subst hc0
      rw [hz]; decide
    · exact absurd (by simp [hc0]) hhead
  · have hC : charToDigit c ≠ 0 := by
      intro h0
      rcases h3 with hlen | hhead
      · have ht : t = [] := List.length_eq_zero.mp (by simpa using hlen)
        subst ht
        apply hz
        simpa [digitsToNat] using h0
      · exact hhead (by simp [charToDigit_eq_zero hcd h0])
    rw [natToChars_eq _ hz, digitsToNat_eq,
      Nat.digits_ofDigits 10 (by omega) _
        (by
          intro l hl
          rcases List.mem_map.mp (List.mem_reverse.mp hl) with ⟨x, hx, rfl⟩
          exact charToDigit_lt (hdig x hx))
        (by
          intro hne'
          have hlast : (((c :: t).map charToDigit).reverse).getLast hne' = charToDigit c := by
            have hq := (List.getLast?_eq_getLast (((c :: t).map charToDigit).reverse) hne').symm
            rw [List.getLast?_reverse, List.head?_map] at hq
            simp only [List.head?_cons, Option.map_some'] at hq
            exact Option.some.inj hq
          rw [hlast]; exact hC)]
    rw [List.reverse_reverse, List.map_map]
    rw [List.map_congr_left (g := id) (by
      intro x hx
      simpa using digitToChar_charToDigit (hdig x hx))]
    simp

lemma charSpan_append {p : Char → Bool} {tok rest : List Char}
    (h1 : tok.all p = true) (h2 : ∀ c, rest.head? = some c → p c = false) :
    charSpan p (tok ++ rest) = (tok, rest) := by
  induction tok with
  | nil =>
    rcases rest with _ | ⟨c, rs⟩
    · rfl
    · simp [charSpan, h2 c rfl]
  | cons c tok ih =>
    simp only [List.all_cons, Bool.and_eq_true] at h1
    simp [charSpan, h1.1, ih h1.2]

lemma parseNum_natToChars (n : Nat) (rest : List Char)
    (hb : ∀ c, rest.head? = some c → isDigitChar c = false) :
    parseNum (natToChars n ++ rest) = some (n, rest) := by
  have hguard :
      (decide (1 < (natToChars n).length) && ((natToChars n).head? == some '0')) = false := by
    rcases natToChars_no_leading_zero n with hlen | hhead
    · simp [hlen]
    · simp [hhead]
  rw [parseNum, charSpan_append (natToChars_all_digit n) hb]
  simp [List.isEmpty_eq_false.mpr (natToChars_ne_nil n), hguard, digitsToNat_natToChars]

lemma isValidSegment_parts {s : List Char} (hs : isValidSegment s = true) :
    s ≠ [] ∧ s.all isIdentChar = true ∧
      (s.all isDigitChar = true → s.length = 1 ∨ s.head? ≠ some '0') := by
  rw [isValidSegment] at hs
  simp only [Bool.and_eq_true] at hs
  obtain ⟨⟨hne, hid⟩, hcond⟩ := hs
  rw [Bool.not_eq_true'] at hne
  refine ⟨List.isEmpty_eq_false.mp hne, hid, fun hdig => ?_⟩
  simp only [Bool.or_eq_true] at hcond
  rcases hcond with (hd | hl) | hh
  · rw [Bool.not_eq_true', hdig] at hd; cases hd
  · exact Or.inl (beq_iff_eq.mp hl)
  · rw [Bool.not_eq_true'] at hh
    exact Or.inr (beq_eq_false_iff_ne.mp hh)

lemma parseId_validSegment (allowLZ : Bool) {s rest : List Char}
    (hs : isValidSegment s = true)
    (hb : ∀ c, rest.head? = some c → isIdentChar c = false) :
    parseId allowLZ (s ++ rest) = some (classifySeg s, rest) := by
  obtain ⟨hne, hid, hcond⟩ := isValidSegment_parts hs
  rw [parseId, charSpan_append hid hb]
  dsimp only
  rw [if_neg (by simp [List.isEmpty_eq_false.mpr hne])]
  by_cases hdig : s.all isDigitChar = true
  · have hguard : (!allowLZ && decide (1 < s.length) && (s.head? == some '0')) = false := by
      rcases hcond hdig with hlen | hhead
      · simp [hlen]
      · simp [hhead]
    rw [if_pos hdig, if_neg (by simp [hguard]), classifySeg, if_pos hdig]
  · rw [if_neg (by simp [hdig]), classifySeg, if_neg (by simp [hdig])]

lemma idChars_classifySeg {s : List Char} (hs : isValidSegment s = true) :
    idChars (classifySeg s) = s := by
  by_cases hdig : s.all isDigitChar = true
  · obtain ⟨hne, _, hcond⟩ := isValidSegment_parts hs
    rw [classifySeg, if_pos hdig, idChars]
    exact natToChars_digitsToNat hne hdig (hcond hdig)
  · rw [classifySeg, if_neg (by simp [hdig]), idChars]

lemma isValidSegment_idChars {id : Identifier} (h : wfIdentifier id = true) :
    isValidSegment (idChars id) = true := by
  cases id with
  | numeric n =>
    rw [idChars, isValidSegment]
    have h2 := natToChars_all_digit n
    simp only [Bool.and_eq_true, Bool.or_eq_true]
    refine ⟨⟨by simp [List.isEmpty_eq_false.mpr (natToChars_ne_nil n)], ?_⟩, ?_⟩
    · exact List.all_eq_true.mpr fun c hc =>
        isIdentChar_of_isDigitChar (List.all_eq_true.mp h2 c hc)
    · rcases natToChars_no_leading_zero n with hlen | hhead
      · exact Or.inl (Or.inr (by simp [hlen]))
      · refine Or.inr ?_
        rw [Bool.not_eq_true']
        exact beq_eq_false_iff_ne.mpr hhead
  | alphaNumeric s =>
    rw [wfIdentifier] at h
    simp only [Bool.and_eq_true, Bool.not_eq_true'] at h
    rw [idChars, isValidSegment]
    simp [h.1.1, h.1.2, h.2]

lemma classifySeg_idChars {id : Identifier} (h : wfIdentifier id = true) :
    classifySeg (idChars id) = id := by
  cases id with
  | numeric n =>
    rw [idChars, classifySeg, if_pos (natToChars_all_digit n), digitsToNat_natToChars]
  | alphaNumeric s =>
    rw [wfIdentifier] at h
    simp only [Bool.and_eq_true, Bool.not_eq_true'] at h
    rw [idChars, classifySeg, if_neg (by simp [h.2])]

lemma joinDotTail_cons (t : List Char) (ts : List (List Char)) :
    joinDotTail (t :: ts) = '.' :: (t ++ joinDotTail ts) := rfl

lemma joinDot_cons (s : List Char) (ss : List (List Char)) :
    joinDot (s :: ss) = s ++ joinDotTail ss := rfl

lemma joinDotTail_boundary (ss : List (List Char)) (rest : List Char)
    (hrest : ∀ c, rest.head? = some c → isIdentChar c = false ∧ c ≠ '.') :
    ∀ c, (joinDotTail ss ++ rest).head? = some c → isIdentChar c = false := by
  cases ss with
  | nil =>
    intro c hc
    exact (hrest c (by simpa [joinDotTail] using hc)).1
  | cons t ts =>
    intro c hc
    rw [joinDotTail_cons, List.cons_append, List.head?_cons] at hc
    have : c = '.' := by injection hc.symm
    subst this
    decide

lemma parseMoreIds_nil (allowLZ : Bool) (fuel : Nat) :
    parseMoreIds allowLZ fuel [] = some ([], []) := by
  cases fuel <;> rfl

lemma parseMoreIds_nodot (allowLZ : Bool) (fuel : Nat) {c : Char} (hc : c ≠ '.')
    (rest : List Char) :
    parseMoreIds allowLZ fuel (c :: rest) = some ([], c :: rest) := by
  cases fuel <;> (unfold parseMoreIds; rw [if_neg hc])

lemma parseMoreIds_dot (allowLZ : Bool) (fuel : Nat) (cs : List Char) :
    parseMoreIds allowLZ (fuel + 1) ('.' :: cs) =
      match parseId allowLZ cs with
      | none => none
      | some (id, rest2) =>
        match parseMoreIds allowLZ fuel rest2 with
        | none => none
        | some (ids, rest3) => some (id :: ids, rest3) := rfl

lemma parseMoreIds_join (allowLZ : Bool) (segs : List (List Char))
    (hsegs : ∀ s ∈ segs, isValidSegment s = true)
    (rest : List Char)
    (hrest : ∀ c, rest.head? = some c → isIdentChar c = false ∧ c ≠ '.')
    (fuel : Nat) (hfuel : (joinDotTail segs ++ rest).length ≤ fuel) :
    parseMoreIds allowLZ fuel (joinDotTail segs ++ rest) =
      some (segs.map classifySeg, rest) := by
  induction segs generalizing fuel with
  | nil =>
    rcases rest with _ | ⟨c, rs⟩
    · simp [joinDotTail, parseMoreIds_nil]
    · have hc := hrest c rfl
      simp [joinDotTail, parseMoreIds_nodot allowLZ fuel hc.2 rs]
  | cons s ss ih =>
    rw [joinDotTail_cons, List.cons_append, List.append_assoc] at hfuel ⊢
    rcases fuel with _ | fuel'
    · simp at hfuel
    have hid := parseId_validSegment allowLZ (hsegs s (by simp))
      (joinDotTail_boundary ss rest hrest)
    have hih := ih (fun t ht => hsegs t (by simp [ht])) fuel'
      (by simp only [List.length_cons, List.length_append] at hfuel ⊢; omega)
    rw [parseMoreIds_dot]
    simp [hid, hih]

lemma parseIdList_join (allowLZ : Bool) (s : List Char) (ss : List (List Char))
    (hsegs : ∀ t ∈ s :: ss, isValidSegment t = true)
    (rest : List Char)
    (hrest : ∀ c, rest.head? = some c → isIdentChar c = false ∧ c ≠ '.') :
    parseIdList allowLZ (joinDot (s :: ss) ++ rest) =
      some ((s :: ss).map classifySeg, rest) := by
  have hid := parseId_validSegment allowLZ (hsegs s (by simp))
    (joinDotTail_boundary ss rest hrest)
  have hmore := parseMoreIds_join allowLZ ss (fun t ht => hsegs t (by simp [ht]))
    rest hrest ((joinDotTail ss ++ rest).length) le_rfl
  simp only [List.length_append] at hmore
  rw [joinDot_cons, List.append_assoc]
  simp [parseIdList, hid, hmore]

lemma splitSegs_ne_nil (cs : List Char) : splitSegs cs ≠ [] := by
  cases cs with
  | nil => simp [splitSegs]
  | cons c rest =>
    simp only [splitSegs]
    by_cases hc : c = '.'
    · simp [hc]
    · rw [if_neg hc]
      split <;> simp

lemma joinDot_splitSegs (cs : List Char) : joinDot (splitSegs cs) = cs := by
  induction cs with
  | nil => rfl
  | cons c rest ih =>
    simp only [splitSegs]
    by_cases hc : c = '.'
    · subst hc
      rw [if_pos rfl]
      rcases h : splitSegs rest with _ | ⟨s, tail⟩
      · exact absurd h (splitSegs_ne_nil rest)
      · rw [h] at ih
        rw [joinDot_cons, List.nil_append, joinDotTail_cons, ← joinDot_cons, ih]
    · rw [if_neg hc]
      rcases h : splitSegs rest with _ | ⟨s, tail⟩
      · exact absurd h (splitSegs_ne_nil rest)
      · rw [h] at ih
        rw [joinDot_cons, List.cons_append, ← joinDot_cons, ih]

lemma parseVersionChars_zzzDash (X : List Char) :
    parseVersionChars ('0' :: '.' :: '0' :: '.' :: '0' :: '-' :: X) =
      (match parseIdList false X with
       | none => none
       | some (ids, r) =>
         match parseOptMeta '+' true r with
         | none => none
         | some (build, r2) =>
           if r2.isEmpty then some ⟨0, 0, 0, ids, build⟩ else none) := rfl

lemma parseVersion_dashLabel (label : String) (h : isValidLabel label = true) :
    parseVersion ("0.0.0-" ++ label) =
      some ⟨0, 0, 0, (splitSegs label.data).map classifySeg, []⟩ := by
  rw [parseVersion, String.data_append]
  have hdata : ("0.0.0-" : String).data = ['0', '.', '0', '.', '0', '-'] := rfl
  rw [hdata]
  simp only [List.cons_append, List.nil_append]
  rw [parseVersionChars_zzzDash]
  rcases hsegs : splitSegs label.data with _ | ⟨s, ss⟩
  · exact absurd hsegs (splitSegs_ne_nil _)
  have hjoin : joinDot (s :: ss) = label.data := by
    rw [← hsegs]; exact joinDot_splitSegs _
  have hvalid : ∀ t ∈ s :: ss, isValidSegment t = true := by
    rw [← hsegs]
    exact List.all_eq_true.mp (by rwa [isValidLabel] at h)
  have hlist := parseIdList_join false s ss hvalid [] (by intro c hc; cases hc)
  rw [List.append_nil, hjoin] at hlist
  rw [hlist]
  rfl

lemma tryFrom_validLabel (label : String) (h : isValidLabel label = true) :
    versionMetadataTryFrom label = .ok ((splitSegs label.data).map classifySeg) := by
  rw [versionMetadataTryFrom, parseVersion_dashLabel label h]

lemma asString_data (s : String) : s.data.asString = s := rfl

lemma metadataToString_classify (label : String) (h : isValidLabel label = true) :
    metadataToString ((splitSegs label.data).map classifySeg) = label := by
  rw [metadataToString, renderMetaChars, List.map_map,
    List.map_congr_left (g := id) (fun t ht => by
      simpa using idChars_classifySeg
        (List.all_eq_true.mp (by rwa [isValidLabel] at h) t ht)),
    List.map_id, joinDot_splitSegs]
  rfl

lemma parseIdList_renderMeta (allowLZ : Bool) (a : Identifier) (as : List Identifier)
    (hwf : ∀ i ∈ a :: as, wfIdentifier i = true) (rest : List Char)
    (hrest : ∀ c, rest.head? = some c → isIdentChar c = false ∧ c ≠ '.') :
    parseIdList allowLZ (renderMetaChars (a :: as) ++ rest) = some (a :: as, rest) := by
  have hvalid : ∀ t ∈ idChars a :: as.map idChars, isValidSegment t = true := by
    intro t ht
    rcases List.mem_cons.mp ht with rfl | ht
    · exact isValidSegment_idChars (hwf a (by simp))
    · rcases List.mem_map.mp ht with ⟨i, hi, rfl⟩
      exact isValidSegment_idChars (hwf i (by simp [hi]))
  have hj := parseIdList_join allowLZ (idChars a) (as.map idChars) hvalid rest hrest
  have hmap : (idChars a :: as.map idChars).map classifySeg = a :: as := by
    rw [List.map_cons, classifySeg_idChars (hwf a (by simp)), List.map_map]
    congr 1
    rw [List.map_congr_left (g := id) (fun i hi => by
      simpa using classifySeg_idChars (hwf i (by simp [hi]))), List.map_id]
  rw [renderMetaChars, List.map_cons, hj, hmap]

lemma parseOptMeta_nil (pc : Char) (allowLZ : Bool) :
    parseOptMeta pc allowLZ [] = some ([], []) := rfl

lemma parseOptMeta_miss (pc : Char) (allowLZ : Bool) {c : Char} (hc : c ≠ pc)
    (cs : List Char) :
    parseOptMeta pc allowLZ (c :: cs) = some ([], c :: cs) := by
  simp [parseOptMeta, hc]

lemma parseOptMeta_hit (pc : Char) (allowLZ : Bool) (cs : List Char) :
    parseOptMeta pc allowLZ (pc :: cs) = parseIdList allowLZ cs := by
  simp [parseOptMeta]

lemma parseVersionChars_nums (M m p : Nat) (T : List Char)
    (hT : ∀ c, T.head? = some c → isDigitChar c = false) :
    parseVersionChars
        (natToChars M ++ '.' :: (natToChars m ++ '.' :: (natToChars p ++ T))) =
      (match parseOptMeta '-' false T with
       | none => none
       | some (pre, cs6) =>
         match parseOptMeta '+' true cs6 with
         | none => none
         | some (build, cs7) =>
           if cs7.isEmpty then some ⟨M, m, p, pre, build⟩ else none) := by
  have h1 := parseNum_natToChars M
    ('.' :: (natToChars m ++ '.' :: (natToChars p ++ T)))
    (by intro c hc; simp at hc; subst hc; decide)
  have h2 := parseNum_natToChars m ('.' :: (natToChars p ++ T))
    (by intro c hc; simp at hc; subst hc; decide)
  have h3 := parseNum_natToChars p T hT
  simp [parseVersionChars, expectChar, h1, h2, h3]

lemma parseVersionChars_render (v : Version) (h : wfVersion v = true) :
    parseVersionChars (renderVersionChars v) = some v := by
  obtain ⟨M, m, p, pre, build⟩ := v
  rw [wfVersion, Bool.and_eq_true] at h
  obtain ⟨hpre, hbuild⟩ := h
  rcases pre with _ | ⟨a, as⟩ <;> rcases build with _ | ⟨b, bs⟩
  · show parseVersionChars
        (natToChars M ++ '.' :: (natToChars m ++ '.' :: (natToChars p ++ []))) =
      some ⟨M, m, p, [], []⟩
    rw [parseVersionChars_nums M m p [] (by intro c hc; cases hc)]
    rfl
  · show parseVersionChars
        (natToChars M ++ '.' :: (natToChars m ++ '.' ::
          (natToChars p ++ ('+' :: renderMetaChars (b :: bs))))) =
      some ⟨M, m, p, [], b :: bs⟩
    rw [parseVersionChars_nums M m p ('+' :: renderMetaChars (b :: bs))
      (by intro c hc; simp at hc; subst hc; decide)]
    have hlist := parseIdList_renderMeta true b bs
      (List.all_eq_true.mp hbuild) [] (by intro c hc; cases hc)
    rw [List.append_nil] at hlist
    rw [parseOptMeta_miss '-' false (by decide) (renderMetaChars (b :: bs))]
    simp [parseOptMeta_hit, hlist]
  · show parseVersionChars
        (natToChars M ++ '.' :: (natToChars m ++ '.' ::
          (natToChars p ++ ('-' :: (renderMetaChars (a :: as) ++ []))))) =
      some ⟨M, m, p, a :: as, []⟩
    rw [parseVersionChars_nums M m p ('-' :: (renderMetaChars (a :: as) ++ []))
      (by intro c hc; simp at hc; subst hc; decide)]
    have hlist := parseIdList_renderMeta false a as
      (List.all_eq_true.mp hpre) [] (by intro c hc; cases hc)
    rw [List.append_nil] at hlist
    simp [parseOptMeta_hit, parseOptMeta_nil, hlist]
  · show parseVersionChars
        (natToChars M ++ '.' :: (natToChars m ++ '.' ::
          (natToChars p ++ ('-' :: (renderMetaChars (a :: as) ++
            ('+' :: renderMetaChars (b :: bs))))))) =
      some ⟨M, m, p, a :: as, b :: bs⟩
    rw [parseVersionChars_nums M m p
      ('-' :: (renderMetaChars (a :: as) ++ ('+' :: renderMetaChars (b :: bs))))
      (by intro c hc; simp at hc; subst hc; decide)]
    have hlist1 := parseIdList_renderMeta false a as
      (List.all_eq_true.mp hpre) ('+' :: renderMetaChars (b :: bs))
      (by intro c hc; simp at hc; subst hc; exact ⟨by decide, by decide⟩)
    have hlist2 := parseIdList_renderMeta true b bs
      (List.all_eq_true.mp hbuild) [] (by intro c hc; cases hc)
    rw [List.append_nil] at hlist2
    simp [parseOptMeta_hit, hlist1, hlist2]

lemma parseVersion_render (v : Version) (h : wfVersion v = true) :
    parseVersion (renderVersionStr v) = some v := by
  rw [parseVersion, renderVersionStr]
  exact parseVersionChars_render v h

/-- C1: evaluation of the code at the failing input.  The label `a+b` contains
the character `+`, which is outside the identifier-segment grammar, so the
claim requires `set-pre-release`/`set-build` to fail and leave the metadata
unreplaced.  Instead the conversion embeds the label as `0.0.0-a+b`, which
parses as pre-release `a` plus build `b`; the operation succeeds and silently
replaces the sequence with `a`, dropping `+b`. -/
theorem setPre_setBuild_accept_plus_label :
    isValidLabel "a+b" = false ∧
    versionMetadataTryFrom "a+b" = .ok [.alphaNumeric ['a']] ∧
    applyBump ⟨0, 9, 0, [.alphaNumeric ['x']], []⟩ (.setPre "a+b") =
      some ⟨0, 9, 0, [.alphaNumeric ['a']], []⟩ ∧
    applyBump ⟨0, 9, 0, [], [.alphaNumeric ['x']]⟩ (.setBuild "a+b") =
      some ⟨0, 9, 0, [], [.alphaNumeric ['a']]⟩ :=
  ⟨by decide, by decide, by decide, by decide⟩

/-- C2: for every label matching the dot-separated identifier-segment grammar,
`set-pre-release(label)` followed by reading the pre-release component returns
exactly `label`, and likewise `set-build(label)` followed by reading the build
component. -/
theorem set_label_read_roundtrip (v : Version) (label : String)
    (h : isValidLabel label = true) :
    ∃ wp wb : Version,
      applyBump v (.setPre label) = some wp ∧
      readComponent wp .pre = label ∧
      applyBump v (.setBuild label) = some wb ∧
      readComponent wb .build = label := by
  refine ⟨{ v with pre := (splitSegs label.data).map classifySeg },
    { v with build := (splitSegs label.data).map classifySeg }, ?_, ?_, ?_, ?_⟩
  · simp [applyBump, tryFrom_validLabel label h]
  · exact metadataToString_classify label h
  · simp [applyBump, tryFrom_validLabel label h]
  · exact metadataToString_classify label h

/-- Witness for C2 at the label `alpha.1` and the version `1.2.3`. -/
theorem set_label_read_roundtrip_witness :
    isValidLabel "alpha.1" = true ∧
      (∃ wp wb : Version,
        applyBump ⟨1, 2, 3, [], []⟩ (.setPre "alpha.1") = some wp ∧
        readComponent wp .pre = "alpha.1" ∧
        applyBump ⟨1, 2, 3, [], []⟩ (.setBuild "alpha.1") = some wb ∧
        readComponent wb .build = "alpha.1") :=
  ⟨by decide, set_label_read_roundtrip ⟨1, 2, 3, [], []⟩ "alpha.1" (by decide)⟩

/-- C3: `increment-major` yields major + 1, zero minor and patch, and empty
pre-release and build sequences. -/
theorem increment_major_semantics (v : Version) :
    applyBump v .major = some ⟨v.major + 1, 0, 0, [], []⟩ := rfl

/-- C4: a `bump` whose parsing or validation fails writes nothing — in
particular `bump --version not-a-version` produces no new manifest (the
process panics before `write_manifest`, leaving the file byte-identical and
exiting non-zero) — and a manifest is produced only after the version was
parsed and the new value fully computed and validated. -/
theorem bump_failure_no_write :
    (∀ doc : Document, executeBump doc (.setFull "not-a-version") = none) ∧
    (∀ (doc : Document) (op : BumpOp), executeBump doc op ≠ none →
      ∃ v w, parseVersion doc.version = some v ∧ applyBump v op = some w) := by
  constructor
  · intro doc
    cases hp : parseVersion doc.version with
    | none => simp [executeBump, hp]
    | some v =>
      simp [executeBump, hp, applyBump,
        show parseVersion "not-a-version" = none from by decide]
  · intro doc op h
    cases hp : parseVersion doc.version with
    | none => exact absurd (by simp [executeBump, hp]) h
    | some v =>
      cases ha : applyBump v op with
      | none => exact absurd (by simp [executeBump, hp, ha]) h
      | some w => exact ⟨v, w, rfl, ha⟩

/-- Witness for C4's write-only-after-validation part at a concrete manifest
and `bump --major`. -/
theorem bump_failure_no_write_witness :
    ∃ v w, parseVersion (Document.mk "A" "1.2.3" "B").version = some v ∧
      applyBump v BumpOp.major = some w :=
  bump_failure_no_write.2 (Document.mk "A" "1.2.3" "B") .major (by decide)

/-- C5: `bump --version s` replaces the entire version value with the parse of
`s` — the rewritten manifest carries exactly the canonical rendering of the
parsed `s`, whatever the old version was — and fails (no manifest produced)
when `s` does not conform to the semantic-versioning grammar. -/
theorem setFull_replaces_entire_version (doc : Document) (v : Version) (s : String)
    (h : parseVersion doc.version = some v) :
    executeBump doc (.setFull s) =
      (parseVersion s).map fun w => { doc with version := renderVersionStr w } := by
  cases hp : parseVersion s with
  | none => simp [executeBump, h, applyBump, hp]
  | some w => simp [executeBump, h, applyBump, hp]

/-- Witness for C5: setting version `6.0.0-beta` on a manifest at `5.0.0`. -/
theorem setFull_replaces_entire_version_witness :
    parseVersion (Document.mk "x" "5.0.0" "y").version = some ⟨5, 0, 0, [], []⟩ ∧
    executeBump (Document.mk "x" "5.0.0" "y") (.setFull "6.0.0-beta") =
      (parseVersion "6.0.0-beta").map
        fun w => { Document.mk "x" "5.0.0" "y" with version := renderVersionStr w } :=
  ⟨by decide, setFull_replaces_entire_version (Document.mk "x" "5.0.0" "y")
    ⟨5, 0, 0, [], []⟩ "6.0.0-beta" (by decide)⟩

/-- C6: `increment-minor` yields minor + 1, patch 0, empty pre-release, major
unchanged; `increment-patch` yields patch + 1, empty pre-release, major and
minor unchanged. -/
theorem increment_minor_patch_semantics (v : Version) :
    (∃ w, applyBump v .minor = some w ∧ w.major = v.major ∧
      w.minor = v.minor + 1 ∧ w.patch = 0 ∧ w.pre = []) ∧
    (∃ u, applyBump v .patch = some u ∧ u.major = v.major ∧
      u.minor = v.minor ∧ u.patch = v.patch + 1 ∧ u.pre = []) :=
  ⟨⟨incrementMinor v, rfl, rfl, rfl, rfl, rfl⟩,
   ⟨incrementPatch v, rfl, rfl, rfl, rfl, rfl⟩⟩

/-- C7: a successful bump changes only the version field of the manifest; the
text before and after it is preserved byte for byte. -/
theorem bump_preserves_rest_of_manifest (doc doc2 : Document) (op : BumpOp)
    (h : executeBump doc op = some doc2) :
    doc2.preText = doc.preText ∧ doc2.postText = doc.postText ∧
      renderDocument doc2 = doc.preText ++ doc2.version ++ doc.postText := by
  cases hp : parseVersion doc.version with
  | none => simp [executeBump, hp] at h
  | some v =>
    cases ha : applyBump v op with
    | none => simp [executeBump, hp, ha] at h
    | some w =>
      simp only [executeBump, hp, ha, Option.some.injEq] at h
      subst h
      exact ⟨rfl, rfl, rfl⟩

/-- Witness for C7: bumping major on `1.2.3` with surrounding text `A`/`B`. -/
theorem bump_preserves_rest_of_manifest_witness :
    (Document.mk "A" "2.0.0" "B").preText = (Document.mk "A" "1.2.3" "B").preText ∧
    (Document.mk "A" "2.0.0" "B").postText = (Document.mk "A" "1.2.3" "B").postText ∧
      renderDocument (Document.mk "A" "2.0.0" "B") =
        (Document.mk "A" "1.2.3" "B").preText ++ (Document.mk "A" "2.0.0" "B").version ++
          (Document.mk "A" "1.2.3" "B").postText :=
  bump_preserves_rest_of_manifest (Document.mk "A" "1.2.3" "B")
    (Document.mk "A" "2.0.0" "B") .major (by decide)

/-- C8: rendering a well-formed version value to its canonical string and
re-parsing that string yields the identical version value. -/
theorem render_parse_roundtrip (v : Version) (h : wfVersion v = true) :
    parseVersion (renderVersionStr v) = some v :=
  parseVersion_render v h

/-- Witness for C8 at `1.2.3-rc.2+7`. -/
theorem render_parse_roundtrip_witness :
    wfVersion ⟨1, 2, 3, [.alphaNumeric ['r','c'], .numeric 2], [.numeric 7]⟩ = true ∧
    parseVersion (renderVersionStr
        ⟨1, 2, 3, [.alphaNumeric ['r','c'], .numeric 2], [.numeric 7]⟩) =
      some ⟨1, 2, 3, [.alphaNumeric ['r','c'], .numeric 2], [.numeric 7]⟩ :=
  ⟨by decide, render_parse_roundtrip
    ⟨1, 2, 3, [.alphaNumeric ['r','c'], .numeric 2], [.numeric 7]⟩ (by decide)⟩

/-- C9: the label-to-metadata conversion never produces its declared `Err`
value — every input either yields `Ok` with the parsed pre-release sequence or
panics through the internal `unwrap` of the full-version parse. -/
theorem tryFrom_err_branch_unreachable (meta : String) :
    ((∃ ids, versionMetadataTryFrom meta = .ok ids) ∨
      versionMetadataTryFrom meta = .panicked) ∧
    ∀ msg, versionMetadataTryFrom meta ≠ .declaredErr msg := by
  cases hp : parseVersion ("0.0.0-" ++ meta) with
  | none =>
    refine ⟨Or.inr ?_, ?_⟩
    · simp [versionMetadataTryFrom, hp]
    · intro msg hmsg
      simp [versionMetadataTryFrom, hp] at hmsg
  | some v =>
    refine ⟨Or.inl ⟨v.pre, ?_⟩, ?_⟩
    · simp [versionMetadataTryFrom, hp]
    · intro msg hmsg
      simp [versionMetadataTryFrom, hp] at hmsg

end Semvercli
